import Mathlib

/-!
Verification of `footing/toolkit.py`.

This file gives a shallow embedding of the toolkit module of the `footing`
repository and proves properties of it.  Python strings are modelled as lists
of Unicode code points (`PyStr`), Python `None`-able strings as `Option PyStr`
(Python truthiness of a string: non-`None` and non-empty), and the external
collaborators (the `conda_lock` parsers, `hashlib`, `yaml`, the registries of
`footing.registry` and the `Build` record of `footing.build`) as explicit
parameters or as records modelled from the specification, since their code is
not part of the embedded source file.
-/

/-- Python strings, modelled as lists of Unicode code points. -/
abbrev PyStr := List Nat

/-- Embed a Lean string literal as a `PyStr`. -/
def pystr (s : String) : PyStr := s.data.map Char.toNat

/-- Python truthiness of an optional string: `None` and `""` are falsy. -/
def strTruthy : Option PyStr → Bool
  | none => false
  | some s => !s.isEmpty

/-- Python `str.lower` on one code point (ASCII letters). -/
def pyLowerChar (c : Nat) : Nat := if 65 ≤ c ∧ c ≤ 90 then c + 32 else c

/-- Python `str.lower`. -/
def pyLower (s : PyStr) : PyStr := s.map pyLowerChar

/-- Whitespace stripped by Python `str.strip`, modelled as the ASCII whitespace set. -/
def isPySpace (c : Nat) : Bool :=
  c == 32 || c == 9 || c == 10 || c == 13 || c == 11 || c == 12

/-- Python `str.strip`: drop whitespace from both ends. -/
def pyStrip (s : PyStr) : PyStr :=
  ((s.dropWhile isPySpace).reverse.dropWhile isPySpace).reverse

/-- The normalization `name.lower().strip()` applied by `Toolset.dependency_spec`. -/
def pyNormalize (s : PyStr) : PyStr := pyStrip (pyLower s)

theorem pyLowerChar_idem (c : Nat) : pyLowerChar (pyLowerChar c) = pyLowerChar c := by
  unfold pyLowerChar
  split
  · rw [if_neg (by omega)]
  · rfl

theorem dropWhile_dropWhile (p : Nat → Bool) (l : List Nat) :
    (l.dropWhile p).dropWhile p = l.dropWhile p := by
  induction l with
  | nil => rfl
  | cons a l ih =>
    by_cases h : p a
    · simp [List.dropWhile_cons, h, ih]
    · simp [List.dropWhile_cons, h]

theorem head?_dropWhile (p : Nat → Bool) (l : List Nat) {a : Nat}
    (h : (l.dropWhile p).head? = some a) : p a = false := by
  induction l with
  | nil => simp [List.dropWhile] at h
  | cons b l ih =>
    by_cases hb : p b
    · simp [List.dropWhile_cons, hb] at h
      exact ih h
    · simp [List.dropWhile_cons, hb] at h
      subst h
      simpa using hb

theorem dropWhile_of_head? (p : Nat → Bool) (l : List Nat)
    (h : ∀ a, l.head? = some a → p a = false) : l.dropWhile p = l := by
  cases l with
  | nil => rfl
  | cons a l => simp [List.dropWhile_cons, h a rfl]

theorem getLast?_dropWhile (p : Nat → Bool) (l : List Nat)
    (h : l.dropWhile p ≠ []) : (l.dropWhile p).getLast? = l.getLast? := by
  induction l with
  | nil => simp [List.dropWhile] at h
  | cons a l ih =>
    by_cases ha : p a
    · rw [List.dropWhile_cons_of_pos ha] at h ⊢
      rw [ih h]
      cases l with
      | nil => rw [List.dropWhile] at h; simp at h
      | cons b l => exact (List.getLast?_cons_cons).symm
    · rw [List.dropWhile_cons_of_neg ha]

theorem pyStrip_idem (s : PyStr) : pyStrip (pyStrip s) = pyStrip s := by
  unfold pyStrip
  set w := isPySpace with hw
  set u := s.dropWhile w with hu
  set v := u.reverse.dropWhile w with hv
  have hvv : v.dropWhile w = v := by rw [hv]; exact dropWhile_dropWhile w u.reverse
  have hA : v.reverse.dropWhile w = v.reverse := by
    apply dropWhile_of_head? w
    intro a ha
    rw [List.head?_reverse] at ha
    have hvne : v ≠ [] := by
      intro hnil
      rw [hnil] at ha
      simp at ha
    have h1 : v.getLast? = u.reverse.getLast? := by
      rw [hv]
      exact getLast?_dropWhile w u.reverse (by rw [← hv]; exact hvne)
    have h2 : u.reverse.getLast? = u.head? := by
      rw [← List.head?_reverse, List.reverse_reverse]
    have h3 : u.head? = some a := by rw [← h2, ← h1, ha]
    exact head?_dropWhile w s h3
  rw [hA, List.reverse_reverse, hvv]

theorem mem_dropWhile (p : Nat → Bool) (l : List Nat) {a : Nat}
    (h : a ∈ l.dropWhile p) : a ∈ l := by
  induction l with
  | nil => simp [List.dropWhile] at h
  | cons b l ih =>
    by_cases hb : p b
    · rw [List.dropWhile_cons_of_pos hb] at h
      exact List.mem_cons_of_mem b (ih h)
    · rwa [List.dropWhile_cons_of_neg hb] at h

theorem mem_pyStrip (s : PyStr) {a : Nat} (h : a ∈ pyStrip s) : a ∈ s := by
  unfold pyStrip at h
  rw [List.mem_reverse] at h
  have h1 := mem_dropWhile isPySpace _ h
  rw [List.mem_reverse] at h1
  exact mem_dropWhile isPySpace s h1

theorem pyLower_fixed (s : PyStr) (h : ∀ c ∈ s, pyLowerChar c = c) :
    pyLower s = s := by
  unfold pyLower
  induction s with
  | nil => rfl
  | cons a s ih =>
    rw [List.map_cons, h a (List.mem_cons_self a s), ih fun c hc => h c (List.mem_cons_of_mem a hc)]

theorem mem_pyLower (s : PyStr) {a : Nat} (h : a ∈ pyLower s) :
    ∃ c ∈ s, a = pyLowerChar c := by
  unfold pyLower at h
  obtain ⟨c, hc, rfl⟩ := List.mem_map.mp h
  exact ⟨c, hc, rfl⟩

/-- Normalization as applied by the code is idempotent: a name that has been
lowercased and stripped once is unchanged by doing it again. -/
theorem pyNormalize_idem (s : PyStr) : pyNormalize (pyNormalize s) = pyNormalize s := by
  unfold pyNormalize
  have hfix : pyLower (pyStrip (pyLower s)) = pyStrip (pyLower s) := by
    apply pyLower_fixed
    intro c hc
    obtain ⟨c0, _, rfl⟩ := mem_pyLower s (mem_pyStrip _ hc)
    exact pyLowerChar_idem c0
  rw [hfix, pyStrip_idem]

/-- Embedding of `conda_lock.src_parser` dependencies: the fields of a parsed
dependency that `footing/toolkit.py` reads or writes (`name`, `manager`,
`version`, `conda_channel`).  Optional fields use `none` for Python `None`. -/
structure Dependency where
  name : PyStr
  manager : PyStr
  version : Option PyStr
  conda_channel : Option PyStr
deriving DecidableEq, Repr

/-- Embedding of `conda_lock.src_parser.LockSpecification`: the fields the
embedded source reads or writes. -/
structure LockSpecification where
  channels : List PyStr
  dependencies : List Dependency
  platforms : List PyStr
  sources : List PyStr
deriving DecidableEq, Repr

/-- Embedding of the `Toolset` dataclass fields (`toolkit.py` lines 20-24). -/
structure Toolset where
  manager : PyStr
  tools : List PyStr
  file : Option PyStr
deriving DecidableEq, Repr

/-- Embedding of `Toolset.__post_init__` (lines 26-38): the construction-time
checks, returning the raised error message or success.  Python truthiness of
`self.tools` is emptiness of the list, of `self.file` is `strTruthy`. -/
def Toolset.postInit (ts : Toolset) : Except PyStr Unit :=
  if ¬ (ts.manager = pystr "conda" ∨ ts.manager = pystr "pip") then
    Except.error (pystr "Unsupported manager '" ++ ts.manager ++ pystr "'")
  else if ts.tools = [] ∧ strTruthy ts.file = false then
    Except.error (pystr "Must provide a list of tools or a file for toolkit")
  else if strTruthy ts.file = true ∧
      ¬ (ts.file = some (pystr "pyproject.toml") ∨ ts.file = some (pystr "environment.yaml") ∨
         ts.file = some (pystr "environment.yml")) then
    Except.error (pystr "Unsupported file '" ++ (ts.file.getD []) ++ pystr "'")
  else
    Except.ok ()

/-- External parsers used by `Toolset.dependency_spec`: the results of
`conda_lock.src_parser.pyproject_toml.parse_pyproject_toml`,
`environment_yaml.parse_environment_file` (both reading the filesystem) and
`pyproject_toml.parse_python_requirement` (parsing one requirement string with
a given manager, `normalize_name=False`).  These are external collaborators of
the embedded module, so they are parameters of the embedding. -/
structure ParseEnv where
  parse_pyproject_toml : LockSpecification
  parse_environment_file : PyStr → LockSpecification
  parse_python_requirement : PyStr → PyStr → Dependency

/-- The parse step of `Toolset.dependency_spec` (lines 43-69): choose the
parser by `self.file`, or build one dependency per entry of `self.tools`. -/
def Toolset.parsedSpec (env : ParseEnv) (ts : Toolset) : LockSpecification :=
  if ts.file = some (pystr "pyproject.toml") then
    env.parse_pyproject_toml
  else if ts.file = some (pystr "environment.yaml") ∨ ts.file = some (pystr "environment.yml") then
    env.parse_environment_file (ts.file.getD [])
  else
    { channels := []
      dependencies := ts.tools.map fun tool => env.parse_python_requirement tool ts.manager
      platforms := []
      sources := [] }

/-- Python `dep.conda_channel or "conda-forge"`: keep a truthy channel,
otherwise use the default. -/
def orChannel (c : Option PyStr) (d : PyStr) : Option PyStr :=
  if strTruthy c = true then c else some d

/-- The post-processing loop body of `Toolset.dependency_spec` (lines 71-76)
applied to one dependency: normalize the name, force the manager of `python`
and `pip` to `conda`, otherwise use the toolset's manager, and default the
channel of conda dependencies when the spec has no channel list. -/
def postProcessDep (manager : PyStr) (noChannels : Bool) (dep : Dependency) : Dependency :=
  let name := pyNormalize dep.name
  let mgr := if ¬ (name = pystr "python" ∨ name = pystr "pip") then manager else pystr "conda"
  let channel :=
    if noChannels = true ∧ mgr = pystr "conda" then orChannel dep.conda_channel (pystr "conda-forge")
    else dep.conda_channel
  { dep with name := name, manager := mgr, conda_channel := channel }

/-- Embedding of the `Toolset.dependency_spec` property (lines 40-79). -/
def Toolset.dependency_spec (env : ParseEnv) (ts : Toolset) : LockSpecification :=
  let spec := ts.parsedSpec env
  { spec with
    dependencies := spec.dependencies.map (postProcessDep ts.manager spec.channels.isEmpty)
    sources := [] }

/-- A demonstration parse environment with trivial external parsers, used only
to instantiate universally quantified theorems at a concrete input. -/
def demoParseEnv : ParseEnv where
  parse_pyproject_toml := ⟨[], [], [], []⟩
  parse_environment_file := fun _ => ⟨[], [], [], []⟩
  parse_python_requirement := fun tool manager => ⟨tool, manager, none, none⟩

/-- Forcing lemma shared by several claims: any dependency of a toolset's
`dependency_spec` whose (normalized) name is `python` or `pip` carries the
`conda` manager. -/
theorem dependency_spec_manager_forced (env : ParseEnv) (ts : Toolset) {d : Dependency}
    (hd : d ∈ (ts.dependency_spec env).dependencies)
    (hname : d.name = pystr "python" ∨ d.name = pystr "pip") :
    d.manager = pystr "conda" := by
  unfold Toolset.dependency_spec at hd
  simp only [List.mem_map] at hd
  obtain ⟨d0, _, rfl⟩ := hd
  simp only [postProcessDep] at hname ⊢
  rw [if_neg (not_not_intro hname)]

/-- C5: for every toolset (any parse source), every dependency of
`dependency_spec` has a lowercased, trimmed name (it equals its own
normalization), and the returned `sources` field is empty
(`toolkit.py` lines 71-79). -/
theorem toolset_dependency_spec_normalized (env : ParseEnv) (ts : Toolset)
    (hvalid : ts.postInit = Except.ok ()) :
    (ts.dependency_spec env).sources = [] ∧
    ∀ d ∈ (ts.dependency_spec env).dependencies, d.name = pyNormalize d.name := by
  refine ⟨rfl, ?_⟩
  intro d hd
  unfold Toolset.dependency_spec at hd
  simp only [List.mem_map] at hd
  obtain ⟨d0, _, rfl⟩ := hd
  simp only [postProcessDep]
  exact (pyNormalize_idem d0.name).symm

/-- Witness for `toolset_dependency_spec_normalized` at a concrete toolset. -/
theorem toolset_dependency_spec_normalized_witness :
    (Toolset.dependency_spec demoParseEnv ⟨pystr "pip", [pystr "Requests"], none⟩).sources = [] ∧
    ∀ d ∈ (Toolset.dependency_spec demoParseEnv
        ⟨pystr "pip", [pystr "Requests"], none⟩).dependencies,
      d.name = pyNormalize d.name :=
  toolset_dependency_spec_normalized demoParseEnv ⟨pystr "pip", [pystr "Requests"], none⟩
    (by rfl)

/-- C6: managers of the dependencies of a toolset's `dependency_spec`: the
toolset's own manager, except that a dependency named `python` or `pip` is
forced to `conda`; and when the spec has no channel list, a conda dependency
with no channel set gets channel `conda-forge` (`toolkit.py` lines 71-77). -/
theorem toolset_dependency_spec_managers (env : ParseEnv) (ts : Toolset)
    (hvalid : ts.postInit = Except.ok ()) :
    (ts.dependency_spec env).dependencies =
      (ts.parsedSpec env).dependencies.map
        (postProcessDep ts.manager (ts.parsedSpec env).channels.isEmpty) ∧
    ∀ d0 ∈ (ts.parsedSpec env).dependencies,
      (((postProcessDep ts.manager (ts.parsedSpec env).channels.isEmpty d0).name = pystr "python" ∨
        (postProcessDep ts.manager (ts.parsedSpec env).channels.isEmpty d0).name = pystr "pip") →
        (postProcessDep ts.manager (ts.parsedSpec env).channels.isEmpty d0).manager =
          pystr "conda") ∧
      (¬ ((postProcessDep ts.manager (ts.parsedSpec env).channels.isEmpty d0).name =
            pystr "python" ∨
          (postProcessDep ts.manager (ts.parsedSpec env).channels.isEmpty d0).name =
            pystr "pip") →
        (postProcessDep ts.manager (ts.parsedSpec env).channels.isEmpty d0).manager =
          ts.manager) ∧
      ((ts.dependency_spec env).channels = [] →
        (postProcessDep ts.manager (ts.parsedSpec env).channels.isEmpty d0).manager =
          pystr "conda" →
        strTruthy d0.conda_channel = false →
        (postProcessDep ts.manager (ts.parsedSpec env).channels.isEmpty d0).conda_channel =
          some (pystr "conda-forge")) := by
  refine ⟨rfl, ?_⟩
  intro d0 _
  refine ⟨?_, ?_, ?_⟩
  · intro hname
    simp only [postProcessDep] at hname ⊢
    rw [if_neg (not_not_intro hname)]
  · intro hname
    simp only [postProcessDep] at hname ⊢
    rw [if_pos hname]
  · intro hch hmgr hnoset
    have hchs : (ts.parsedSpec env).channels = [] := hch
    have hempty : (ts.parsedSpec env).channels.isEmpty = true := by
      rw [hchs]; rfl
    simp only [postProcessDep] at hmgr ⊢
    rw [if_pos ⟨hempty, hmgr⟩]
    unfold orChannel
    rw [if_neg (by simp [hnoset])]

/-- Witness for `toolset_dependency_spec_managers`: a concrete `Python` tool in
a conda toolset is normalized to `python` and carries manager `conda`. -/
theorem toolset_dependency_spec_managers_witness :
    (postProcessDep (pystr "conda")
        ((Toolset.parsedSpec demoParseEnv ⟨pystr "conda", [pystr "Python"], none⟩).channels.isEmpty)
        ⟨pystr "Python", pystr "conda", none, none⟩).manager = pystr "conda" := by
  have h := (toolset_dependency_spec_managers demoParseEnv
      ⟨pystr "conda", [pystr "Python"], none⟩ (by rfl)).2
      ⟨pystr "Python", pystr "conda", none, none⟩ (by decide)
  exact h.1 (by decide)

/-- C7: `Toolset.__post_init__` raises exactly when the manager is unsupported,
or the tools list is empty and no (truthy) file is given, or a (truthy) file is
given that is not a recognized manifest name; otherwise construction succeeds
(`toolkit.py` lines 26-38).  The checks run in the constructor, so the
embedding places them in `Toolset.postInit`, evaluated at construction. -/
theorem toolset_postInit_error_iff (ts : Toolset) :
    (∃ e, ts.postInit = Except.error e) ↔
      (¬ (ts.manager = pystr "conda" ∨ ts.manager = pystr "pip") ∨
       (ts.tools = [] ∧ strTruthy ts.file = false) ∨
       (strTruthy ts.file = true ∧
        ¬ (ts.file = some (pystr "pyproject.toml") ∨ ts.file = some (pystr "environment.yaml") ∨
           ts.file = some (pystr "environment.yml")))) := by
  constructor
  · rintro ⟨e, he⟩
    by_contra hno
    have h1 := fun hp => hno (Or.inl hp)
    have h2 := fun hq => hno (Or.inr (Or.inl hq))
    have h3 := fun hr => hno (Or.inr (Or.inr hr))
    unfold Toolset.postInit at he
    rw [if_neg h1, if_neg h2, if_neg h3] at he
    exact Except.noConfusion he
  · intro h
    unfold Toolset.postInit
    by_cases h1 : ¬ (ts.manager = pystr "conda" ∨ ts.manager = pystr "pip")
    · rw [if_pos h1]; exact ⟨_, rfl⟩
    · rw [if_neg h1]
      by_cases h2 : ts.tools = [] ∧ strTruthy ts.file = false
      · rw [if_pos h2]; exact ⟨_, rfl⟩
      · rw [if_neg h2]
        by_cases h3 : strTruthy ts.file = true ∧
            ¬ (ts.file = some (pystr "pyproject.toml") ∨
               ts.file = some (pystr "environment.yaml") ∨
               ts.file = some (pystr "environment.yml"))
        · rw [if_pos h3]; exact ⟨_, rfl⟩
        · rcases h with ha | hb | hc
          · exact absurd ha h1
          · exact absurd hb h2
          · exact absurd hc h3

/-- Witness for `toolset_postInit_error_iff`: an unsupported manager is
rejected at construction. -/
theorem toolset_postInit_error_iff_witness :
    ∃ e, (Toolset.postInit ⟨pystr "cargo", [pystr "x"], none⟩) = Except.error e :=
  (toolset_postInit_error_iff ⟨pystr "cargo", [pystr "x"], none⟩).mpr (Or.inl (by decide))

/-- Embedding of the `Toolkit` dataclass (`toolkit.py` lines 90-96): a key, its
own toolsets, an optional base toolkit (the inheritance chain, acyclic by
construction), target platforms, and the retained definition record `_def`
(represented by its canonical serialized form, a string; `yaml.dump` of the
record is modelled separately as a serialization parameter). -/
inductive Toolkit where
  | mk (key : PyStr) (toolsets : List Toolset) (base : Option Toolkit)
       (platforms : List PyStr) (defn : PyStr)

def Toolkit.key : Toolkit → PyStr
  | Toolkit.mk k _ _ _ _ => k

def Toolkit.toolsets : Toolkit → List Toolset
  | Toolkit.mk _ ts _ _ _ => ts

def Toolkit.base : Toolkit → Option Toolkit
  | Toolkit.mk _ _ b _ _ => b

def Toolkit.platforms : Toolkit → List PyStr
  | Toolkit.mk _ _ _ p _ => p

def Toolkit.defn : Toolkit → PyStr
  | Toolkit.mk _ _ _ _ d => d

/-- Embedding of `Toolkit.__post_init__` (lines 98-99): an empty (falsy)
platform list defaults to the fixed three-platform set.  It is applied where
`self.platforms` is read, which is extensionally the same as mutating the
field at construction. -/
def Toolkit.postInitPlatforms (p : List PyStr) : List PyStr :=
  if p.isEmpty then [pystr "osx-arm64", pystr "osx-64", pystr "linux-64"] else p

/-- Embedding of `Toolkit.flattened_toolkits` (lines 133-142): ancestors first
(recursively), then self. -/
def Toolkit.flattened_toolkits (t : Toolkit) : List Toolkit :=
  match t with
  | Toolkit.mk k ts none p d => [Toolkit.mk k ts none p d]
  | Toolkit.mk k ts (some b) p d =>
    Toolkit.flattened_toolkits b ++ [Toolkit.mk k ts (some b) p d]

/-- Embedding of `Toolkit.flattened_toolsets` (lines 144-154): the base's
flattened toolsets (recursively), then self's own toolsets. -/
def Toolkit.flattened_toolsets (t : Toolkit) : List Toolset :=
  match t with
  | Toolkit.mk _ ts none _ _ => ts
  | Toolkit.mk _ ts (some b) _ _ => Toolkit.flattened_toolsets b ++ ts

/-- The strict ancestors of a toolkit: the flattening of its base chain. -/
def Toolkit.ancestors (t : Toolkit) : List Toolkit :=
  match t with
  | Toolkit.mk _ _ none _ _ => []
  | Toolkit.mk _ _ (some b) _ _ => Toolkit.flattened_toolkits b

theorem sizeOf_le_of_mem_flattened :
    ∀ (t : Toolkit), ∀ u ∈ t.flattened_toolkits, sizeOf u ≤ sizeOf t
  | Toolkit.mk k ts none p d => by
    intro u hu
    simp only [Toolkit.flattened_toolkits, List.mem_singleton] at hu
    subst hu
    exact le_refl _
  | Toolkit.mk k ts (some b) p d => by
    intro u hu
    simp only [Toolkit.flattened_toolkits, List.mem_append, List.mem_singleton] at hu
    rcases hu with hu | hu
    · have ih := sizeOf_le_of_mem_flattened b u hu
      have hlt : sizeOf b < sizeOf (Toolkit.mk k ts (some b) p d) := by
        simp only [Toolkit.mk.sizeOf_spec, Option.some.sizeOf_spec]
        omega
      omega
    · subst hu
      exact le_refl _

theorem flattened_toolsets_eq_flatten :
    ∀ (t : Toolkit),
      t.flattened_toolsets = (t.flattened_toolkits.map Toolkit.toolsets).flatten
  | Toolkit.mk k ts none p d => by
    simp [Toolkit.flattened_toolsets, Toolkit.flattened_toolkits, Toolkit.toolsets]
  | Toolkit.mk k ts (some b) p d => by
    have ih := flattened_toolsets_eq_flatten b
    simp [Toolkit.flattened_toolsets, Toolkit.flattened_toolkits, Toolkit.toolsets, ih]

/-- C4: `flattened_toolkits` lists all ancestors strictly before the toolkit
itself, in base-to-child order, self appearing exactly once (last), and
`flattened_toolsets` is the concatenation of each listed toolkit's own
toolsets in that same order (`toolkit.py` lines 133-154). -/
theorem toolkit_flattened_order (t : Toolkit) :
    t.flattened_toolkits = t.ancestors ++ [t] ∧
    t ∉ t.ancestors ∧
    t.flattened_toolsets = (t.flattened_toolkits.map Toolkit.toolsets).flatten := by
  refine ⟨?_, ?_, flattened_toolsets_eq_flatten t⟩
  · cases t with
    | mk k ts b p d =>
      cases b with
      | none => rfl
      | some b => rfl
  · cases t with
    | mk k ts b p d =>
      cases b with
      | none => simp [Toolkit.ancestors]
      | some b =>
        intro hmem
        simp only [Toolkit.ancestors] at hmem
        have hle := sizeOf_le_of_mem_flattened b _ hmem
        have hlt : sizeOf b < sizeOf (Toolkit.mk k ts (some b) p d) := by
          simp only [Toolkit.mk.sizeOf_spec, Option.some.sizeOf_spec]
          omega
        omega

/-- The single scan of `Toolkit.dependency_specs` (lines 162-171) over all
dependencies: the last dependency named `python`, the last named `pip`
(an `elif`, so a `python`-named dependency is never recorded as `pip`), and
whether any dependency has manager `pip`. -/
def scan_dependencies (deps : List Dependency) :
    Option Dependency × Option Dependency × Bool :=
  deps.foldl
    (fun acc d =>
      (if d.name = pystr "python" then some d else acc.1,
       if ¬ d.name = pystr "python" ∧ d.name = pystr "pip" then some d else acc.2.1,
       if d.manager = pystr "pip" then true else acc.2.2))
    (none, none, false)

/-- The synthesized bootstrap spec of `Toolkit.dependency_specs` (lines
174-181): a deep copy of the found python dependency, renamed to `pip` and
pinned to version `22.3.1`, wrapped in a minimal `LockSpecification`. -/
def make_pip_spec (python_dep : Dependency) : LockSpecification :=
  { channels := []
    dependencies := [{ python_dep with name := pystr "pip", version := some (pystr "22.3.1") }]
    platforms := []
    sources := [] }

/-- The merge step of `Toolkit.dependency_specs` (lines 156-183) on the list
of per-toolset specs: append the synthesized pip spec exactly when a python
dependency exists, no pip dependency exists, and some dependency has the pip
manager. -/
def merge_dependency_specs (specs : List LockSpecification) : List LockSpecification :=
  match scan_dependencies (specs.flatMap fun s => s.dependencies) with
  | (some python_dep, none, true) => specs ++ [make_pip_spec python_dep]
  | _ => specs

/-- Embedding of the `Toolkit.dependency_specs` property (lines 156-183). -/
def Toolkit.dependency_specs (env : ParseEnv) (t : Toolkit) : List LockSpecification :=
  merge_dependency_specs (t.flattened_toolsets.map (Toolset.dependency_spec env))

theorem scan_fst_none_iff (deps : List Dependency) :
    ∀ acc : Option Dependency × Option Dependency × Bool,
      (deps.foldl
        (fun acc d =>
          (if d.name = pystr "python" then some d else acc.1,
           if ¬ d.name = pystr "python" ∧ d.name = pystr "pip" then some d else acc.2.1,
           if d.manager = pystr "pip" then true else acc.2.2)) acc).1 = none ↔
      (acc.1 = none ∧ ∀ d ∈ deps, ¬ d.name = pystr "python") := by
  induction deps with
  | nil => intro acc; simp
  | cons d deps ih =>
    intro acc
    rw [List.foldl_cons, ih]
    by_cases hd : d.name = pystr "python"
    · simp [hd]
    · simp only [if_neg hd]
      constructor
      · rintro ⟨h1, h2⟩
        exact ⟨h1, fun x hx => by
          rcases List.mem_cons.mp hx with rfl | hx
          · exact hd
          · exact h2 x hx⟩
      · rintro ⟨h1, h2⟩
        exact ⟨h1, fun x hx => h2 x (List.mem_cons_of_mem d hx)⟩

theorem scan_fst_some_mem (deps : List Dependency) :
    ∀ (acc : Option Dependency × Option Dependency × Bool) (x : Dependency),
      (deps.foldl
        (fun acc d =>
          (if d.name = pystr "python" then some d else acc.1,
           if ¬ d.name = pystr "python" ∧ d.name = pystr "pip" then some d else acc.2.1,
           if d.manager = pystr "pip" then true else acc.2.2)) acc).1 = some x →
      (x ∈ deps ∧ x.name = pystr "python") ∨ acc.1 = some x := by
  induction deps with
  | nil => intro acc x h; exact Or.inr h
  | cons d deps ih =>
    intro acc x h
    rw [List.foldl_cons] at h
    rcases ih _ x h with ⟨hmem, hname⟩ | hacc
    · exact Or.inl ⟨List.mem_cons_of_mem d hmem, hname⟩
    · by_cases hd : d.name = pystr "python"
      · rw [if_pos hd] at hacc
        obtain rfl : d = x := by injection hacc
        exact Or.inl ⟨List.mem_cons_self d deps, hd⟩
      · rw [if_neg hd] at hacc
        exact Or.inr hacc

theorem scan_snd_none_iff (deps : List Dependency) :
    ∀ acc : Option Dependency × Option Dependency × Bool,
      (deps.foldl
        (fun acc d =>
          (if d.name = pystr "python" then some d else acc.1,
           if ¬ d.name = pystr "python" ∧ d.name = pystr "pip" then some d else acc.2.1,
           if d.manager = pystr "pip" then true else acc.2.2)) acc).2.1 = none ↔
      (acc.2.1 = none ∧ ∀ d ∈ deps, ¬ (¬ d.name = pystr "python" ∧ d.name = pystr "pip")) := by
  induction deps with
  | nil => intro acc; simp
  | cons d deps ih =>
    intro acc
    rw [List.foldl_cons, ih]
    by_cases hd : ¬ d.name = pystr "python" ∧ d.name = pystr "pip"
    · have hne : ¬ (pystr "pip" = pystr "python") := by decide
      simp [hd, hne]
    · simp only [if_neg hd]
      constructor
      · rintro ⟨h1, h2⟩
        exact ⟨h1, fun x hx => by
          rcases List.mem_cons.mp hx with rfl | hx
          · exact hd
          · exact h2 x hx⟩
      · rintro ⟨h1, h2⟩
        exact ⟨h1, fun x hx => h2 x (List.mem_cons_of_mem d hx)⟩

theorem scan_haspip_iff (deps : List Dependency) :
    ∀ acc : Option Dependency × Option Dependency × Bool,
      (deps.foldl
        (fun acc d =>
          (if d.name = pystr "python" then some d else acc.1,
           if ¬ d.name = pystr "python" ∧ d.name = pystr "pip" then some d else acc.2.1,
           if d.manager = pystr "pip" then true else acc.2.2)) acc).2.2 = true ↔
      (acc.2.2 = true ∨ ∃ d ∈ deps, d.manager = pystr "pip") := by
  induction deps with
  | nil => intro acc; simp
  | cons d deps ih =>
    intro acc
    rw [List.foldl_cons, ih]
    by_cases hd : d.manager = pystr "pip"
    · simp [hd]
    · simp only [if_neg hd]
      constructor
      · rintro (h1 | h2)
        · exact Or.inl h1
        · exact Or.inr (by
            obtain ⟨x, hx, hxm⟩ := h2
            exact ⟨x, List.mem_cons_of_mem d hx, hxm⟩)
      · rintro (h1 | ⟨x, hx, hxm⟩)
        · exact Or.inl h1
        · rcases List.mem_cons.mp hx with rfl | hx
          · exact absurd hxm hd
          · exact Or.inr ⟨x, hx, hxm⟩

theorem scan_dependencies_fst_none_iff (deps : List Dependency) :
    (scan_dependencies deps).1 = none ↔ ∀ d ∈ deps, ¬ d.name = pystr "python" := by
  unfold scan_dependencies
  rw [scan_fst_none_iff]
  simp

theorem scan_dependencies_fst_some (deps : List Dependency) {x : Dependency}
    (h : (scan_dependencies deps).1 = some x) : x ∈ deps ∧ x.name = pystr "python" := by
  unfold scan_dependencies at h
  rcases scan_fst_some_mem deps _ x h with h1 | h2
  · exact h1
  · simp at h2

theorem scan_dependencies_snd_none_iff (deps : List Dependency) :
    (scan_dependencies deps).2.1 = none ↔
      ∀ d ∈ deps, ¬ (¬ d.name = pystr "python" ∧ d.name = pystr "pip") := by
  unfold scan_dependencies
  rw [scan_snd_none_iff]
  simp

theorem scan_dependencies_haspip_iff (deps : List Dependency) :
    (scan_dependencies deps).2.2 = true ↔ ∃ d ∈ deps, d.manager = pystr "pip" := by
  unfold scan_dependencies
  rw [scan_haspip_iff]
  simp

/-- Characterization of the merge step over any list of per-toolset specs:
the synthesized pip spec is appended exactly under the three conditions of
`toolkit.py` line 174, and otherwise the list is returned unchanged. -/
theorem merge_characterization (specs : List LockSpecification) :
    (((∃ d ∈ specs.flatMap fun s => s.dependencies, d.name = pystr "python") ∧
      (∀ d ∈ specs.flatMap fun s => s.dependencies, ¬ d.name = pystr "pip") ∧
      (∃ d ∈ specs.flatMap fun s => s.dependencies, d.manager = pystr "pip")) →
      ∃ python_dep,
        python_dep ∈ (specs.flatMap fun s => s.dependencies) ∧
        python_dep.name = pystr "python" ∧
        merge_dependency_specs specs = specs ++ [make_pip_spec python_dep]) ∧
    (¬ ((∃ d ∈ specs.flatMap fun s => s.dependencies, d.name = pystr "python") ∧
        (∀ d ∈ specs.flatMap fun s => s.dependencies, ¬ d.name = pystr "pip") ∧
        (∃ d ∈ specs.flatMap fun s => s.dependencies, d.manager = pystr "pip")) →
      merge_dependency_specs specs = specs) := by
  constructor
  · rintro ⟨⟨dpy, hdpy, hdpyn⟩, hnopip, ⟨dpip, hdpip, hdpipm⟩⟩
    have hp : ∃ x, (scan_dependencies (specs.flatMap fun s => s.dependencies)).1 = some x := by
      cases hc : (scan_dependencies (specs.flatMap fun s => s.dependencies)).1 with
      | none =>
        exact absurd hdpyn ((scan_dependencies_fst_none_iff _).mp hc dpy hdpy)
      | some x => exact ⟨x, rfl⟩
    obtain ⟨x, hx⟩ := hp
    have hq : (scan_dependencies (specs.flatMap fun s => s.dependencies)).2.1 = none := by
      rw [scan_dependencies_snd_none_iff]
      intro d _ hcontra
      exact hnopip d (by assumption) hcontra.2
    have hb : (scan_dependencies (specs.flatMap fun s => s.dependencies)).2.2 = true := by
      rw [scan_dependencies_haspip_iff]
      exact ⟨dpip, hdpip, hdpipm⟩
    obtain ⟨hxmem, hxname⟩ := scan_dependencies_fst_some _ hx
    refine ⟨x, hxmem, hxname, ?_⟩
    unfold merge_dependency_specs
    rcases hscan : scan_dependencies (specs.flatMap fun s => s.dependencies) with ⟨p, q, b⟩
    rw [hscan] at hx hq hb
    simp only at hx hq hb
    subst hx
    subst hq
    subst hb
    rfl
  · intro hnot
    unfold merge_dependency_specs
    rcases hscan : scan_dependencies (specs.flatMap fun s => s.dependencies) with ⟨p, q, b⟩
    cases p with
    | none => cases q <;> cases b <;> rfl
    | some x =>
      cases q with
      | some y => cases b <;> rfl
      | none =>
        cases b with
        | false => rfl
        | true =>
          exfalso
          apply hnot
          have hx : (scan_dependencies (specs.flatMap fun s => s.dependencies)).1 = some x := by
            rw [hscan]
          have hq : (scan_dependencies (specs.flatMap fun s => s.dependencies)).2.1 = none := by
            rw [hscan]
          have hb : (scan_dependencies (specs.flatMap fun s => s.dependencies)).2.2 = true := by
            rw [hscan]
          obtain ⟨hxmem, hxname⟩ := scan_dependencies_fst_some _ hx
          refine ⟨⟨x, hxmem, hxname⟩, ?_, (scan_dependencies_haspip_iff _).mp hb⟩
          intro d hd hdpip
          have hdnp : ¬ d.name = pystr "python" := by
            rw [hdpip]
            decide
          exact (scan_dependencies_snd_none_iff _).mp hq d hd ⟨hdnp, hdpip⟩

/-- C1: `Toolkit.dependency_specs` appends exactly one synthesized spec (a
single dependency cloned from the python dependency, renamed to `pip`, pinned
to `22.3.1`) when the flattened toolsets' specs contain a `python` dependency,
no `pip` dependency, and some pip-manager dependency, and otherwise returns
the per-toolset specs unchanged (`toolkit.py` lines 156-183). -/
theorem toolkit_dependency_specs_synthesis (env : ParseEnv) (t : Toolkit) :
    (((∃ d ∈ (t.flattened_toolsets.map (Toolset.dependency_spec env)).flatMap
          fun s => s.dependencies, d.name = pystr "python") ∧
      (∀ d ∈ (t.flattened_toolsets.map (Toolset.dependency_spec env)).flatMap
          fun s => s.dependencies, ¬ d.name = pystr "pip") ∧
      (∃ d ∈ (t.flattened_toolsets.map (Toolset.dependency_spec env)).flatMap
          fun s => s.dependencies, d.manager = pystr "pip")) →
      ∃ python_dep,
        python_dep ∈ ((t.flattened_toolsets.map (Toolset.dependency_spec env)).flatMap
          fun s => s.dependencies) ∧
        python_dep.name = pystr "python" ∧
        t.dependency_specs env =
          t.flattened_toolsets.map (Toolset.dependency_spec env) ++
            [make_pip_spec python_dep]) ∧
    (¬ ((∃ d ∈ (t.flattened_toolsets.map (Toolset.dependency_spec env)).flatMap
          fun s => s.dependencies, d.name = pystr "python") ∧
        (∀ d ∈ (t.flattened_toolsets.map (Toolset.dependency_spec env)).flatMap
          fun s => s.dependencies, ¬ d.name = pystr "pip") ∧
        (∃ d ∈ (t.flattened_toolsets.map (Toolset.dependency_spec env)).flatMap
          fun s => s.dependencies, d.manager = pystr "pip")) →
      t.dependency_specs env = t.flattened_toolsets.map (Toolset.dependency_spec env)) :=
  merge_characterization (t.flattened_toolsets.map (Toolset.dependency_spec env))

/-- A demonstration toolkit: a conda toolset declaring `python` and a pip
toolset declaring `black`, no base. -/
def demoToolkit : Toolkit :=
  Toolkit.mk (pystr "default")
    [⟨pystr "conda", [pystr "python"], none⟩, ⟨pystr "pip", [pystr "black"], none⟩]
    none [] (pystr "demo")

/-- Witness for `toolkit_dependency_specs_synthesis` at a concrete toolkit. -/
theorem toolkit_dependency_specs_synthesis_witness :
    ∃ python_dep,
      python_dep ∈ ((demoToolkit.flattened_toolsets.map
          (Toolset.dependency_spec demoParseEnv)).flatMap fun s => s.dependencies) ∧
      python_dep.name = pystr "python" ∧
      Toolkit.dependency_specs demoParseEnv demoToolkit =
        demoToolkit.flattened_toolsets.map (Toolset.dependency_spec demoParseEnv) ++
          [make_pip_spec python_dep] :=
  (toolkit_dependency_specs_synthesis demoParseEnv demoToolkit).1
    ⟨by decide, by decide, by decide⟩

/-- C10: in the list returned by `Toolkit.dependency_specs`, every dependency
named `python` or `pip` has manager `conda`: the per-toolset post-processing
forces parsed dependencies, and the synthesized pip dependency inherits the
already-forced manager of the python dependency it is cloned from. -/
theorem toolkit_python_pip_conda_invariant (env : ParseEnv) (t : Toolkit) :
    ∀ spec ∈ t.dependency_specs env, ∀ d ∈ spec.dependencies,
      (d.name = pystr "python" ∨ d.name = pystr "pip") → d.manager = pystr "conda" := by
  intro spec hspec d hd hname
  have hmem_case :
      ∀ s ∈ t.flattened_toolsets.map (Toolset.dependency_spec env),
        ∀ x ∈ s.dependencies, (x.name = pystr "python" ∨ x.name = pystr "pip") →
          x.manager = pystr "conda" := by
    intro s hs x hx hxname
    obtain ⟨ts, _, rfl⟩ := List.mem_map.mp hs
    exact dependency_spec_manager_forced env ts hx hxname
  unfold Toolkit.dependency_specs merge_dependency_specs at hspec
  rcases hscan : scan_dependencies
      ((t.flattened_toolsets.map (Toolset.dependency_spec env)).flatMap
        fun s => s.dependencies) with ⟨p, q, b⟩
  rw [hscan] at hspec
  have hsynth :
      ∀ x : Dependency, p = some x → spec = make_pip_spec x → d.manager = pystr "conda" := by
    intro x hp hspeceq
    have hx : (scan_dependencies
        ((t.flattened_toolsets.map (Toolset.dependency_spec env)).flatMap
          fun s => s.dependencies)).1 = some x := by rw [hscan, hp]
    obtain ⟨hxmem, hxname⟩ := scan_dependencies_fst_some _ hx
    obtain ⟨s, hs, hxs⟩ := List.mem_flatMap.mp hxmem
    have hxconda : x.manager = pystr "conda" := hmem_case s hs x hxs (Or.inl hxname)
    rw [hspeceq] at hd
    simp only [make_pip_spec, List.mem_singleton] at hd
    rw [hd]
    exact hxconda
  cases p with
  | none =>
    cases q <;> cases b <;> exact hmem_case spec hspec d hd hname
  | some x =>
    cases q with
    | some y => cases b <;> exact hmem_case spec hspec d hd hname
    | none =>
      cases b with
      | false => exact hmem_case spec hspec d hd hname
      | true =>
        rcases List.mem_append.mp hspec with hsl | hsr
        · exact hmem_case spec hsl d hd hname
        · exact hsynth x rfl (List.mem_singleton.mp hsr)

/-- Witness for `toolkit_python_pip_conda_invariant`: the synthesized pip
dependency of the demonstration toolkit carries manager `conda`. -/
theorem toolkit_python_pip_conda_invariant_witness :
    (⟨pystr "pip", pystr "conda", some (pystr "22.3.1"),
        some (pystr "conda-forge")⟩ : Dependency).manager = pystr "conda" :=
  toolkit_python_pip_conda_invariant demoParseEnv demoToolkit
    (make_pip_spec ⟨pystr "python", pystr "conda", none, some (pystr "conda-forge")⟩)
    (by decide) _ (by decide) (Or.inr (by decide))

/-- The manifest files referenced by the flattened toolsets (line 106):
`[toolset.file for toolset in self.flattened_toolsets if toolset.file]`. -/
def Toolkit.files (t : Toolkit) : List PyStr :=
  t.flattened_toolsets.filterMap fun s => if strTruthy s.file then s.file else none

/-- The byte stream fed to the digest by `Toolkit.ref` (lines 101-116): the
serialized definition record of every toolkit in the flattened chain (self
last), then the raw bytes of every referenced manifest file, in flattened
order.  `dump` models the external `yaml.dump(_def, SafeDumper).encode`
canonical serialization and `fs` models `open(file, "rb").read()`. -/
def Toolkit.refStream (dump : PyStr → List Nat) (fs : PyStr → List Nat) (t : Toolkit) :
    List Nat :=
  (t.flattened_toolkits.map fun tk => dump tk.defn).flatten ++ (t.files.map fs).flatten

/-- Embedding of `Toolkit.ref`: the hex digest (`hash`, modelling the external
`hashlib.sha256(...).hexdigest()` collaborator) of the accumulated stream. -/
def Toolkit.ref (hash : List Nat → PyStr) (dump : PyStr → List Nat) (fs : PyStr → List Nat)
    (t : Toolkit) : PyStr :=
  hash (t.refStream dump fs)

theorem flatten_middle_cancel (P S : List (List Nat)) (x y tail : List Nat)
    (h : (P ++ x :: S).flatten ++ tail = (P ++ y :: S).flatten ++ tail) : x = y := by
  rw [List.flatten_append, List.flatten_append] at h
  simp only [List.flatten_cons, List.append_assoc] at h
  have h2 := List.append_cancel_left h
  exact List.append_cancel_right h2

/-- C2: `ref` is a deterministic content hash.  Part (a): two toolkits with
identical serialized definition records along the flattened chain and
identical bytes for every referenced manifest yield the same `ref` (with
`t₁ = t₂` and `fs₁ = fs₂` this is stability of repeated calls).  Parts (b)
and (c): a change to exactly one ancestor's serialized definition, or to
exactly one referenced manifest's bytes, changes the `ref`, given that the
digest is collision-free on these streams (the contract of the external
cryptographic 256-bit digest). -/
theorem toolkit_ref_deterministic (hash : List Nat → PyStr) (dump : PyStr → List Nat)
    (fs₁ fs₂ : PyStr → List Nat) (t₁ t₂ : Toolkit) :
    ((t₁.flattened_toolkits.map fun tk => dump tk.defn) =
       (t₂.flattened_toolkits.map fun tk => dump tk.defn) →
     t₁.files = t₂.files →
     (∀ f ∈ t₁.files, fs₁ f = fs₂ f) →
     t₁.ref hash dump fs₁ = t₂.ref hash dump fs₂) ∧
    (∀ (P S : List (List Nat)) (x y : List Nat),
      Function.Injective hash →
      (t₁.flattened_toolkits.map fun tk => dump tk.defn) = P ++ x :: S →
      (t₂.flattened_toolkits.map fun tk => dump tk.defn) = P ++ y :: S →
      x ≠ y →
      t₁.files.map fs₁ = t₂.files.map fs₂ →
      t₁.ref hash dump fs₁ ≠ t₂.ref hash dump fs₂) ∧
    (∀ (P S : List (List Nat)) (x y : List Nat),
      Function.Injective hash →
      (t₁.flattened_toolkits.map fun tk => dump tk.defn) =
        (t₂.flattened_toolkits.map fun tk => dump tk.defn) →
      t₁.files.map fs₁ = P ++ x :: S →
      t₂.files.map fs₂ = P ++ y :: S →
      x ≠ y →
      t₁.ref hash dump fs₁ ≠ t₂.ref hash dump fs₂) := by
  refine ⟨?_, ?_, ?_⟩
  · intro hdefs hfiles hbytes
    unfold Toolkit.ref Toolkit.refStream
    rw [hdefs]
    have hmap : t₁.files.map fs₁ = t₂.files.map fs₂ := by
      rw [← hfiles]
      exact List.map_congr_left hbytes
    rw [hmap]
  · intro P S x y hinj hd1 hd2 hxy hf
    unfold Toolkit.ref Toolkit.refStream
    intro heq
    have hstream := hinj heq
    rw [hd1, hd2, hf] at hstream
    have hcancel := List.append_cancel_right hstream
    exact hxy (flatten_middle_cancel P S x y [] (by rw [List.append_nil, List.append_nil, hcancel]))
  · intro P S x y hinj hdefs hf1 hf2 hxy
    unfold Toolkit.ref Toolkit.refStream
    intro heq
    have hstream := hinj heq
    rw [hdefs, hf1, hf2] at hstream
    have hcancel := List.append_cancel_left hstream
    exact hxy (flatten_middle_cancel P S x y [] (by rw [List.append_nil, List.append_nil, hcancel]))

/-- Witness for `toolkit_ref_deterministic`: with the identity digest and
serializer, two toolkits differing only in the definition record have
different refs. -/
theorem toolkit_ref_deterministic_witness :
    Toolkit.ref id id (fun _ => []) (Toolkit.mk (pystr "a") [] none [] [1]) ≠
      Toolkit.ref id id (fun _ => []) (Toolkit.mk (pystr "a") [] none [] [2]) :=
  (toolkit_ref_deterministic id id (fun _ => []) (fun _ => [])
      (Toolkit.mk (pystr "a") [] none [] [1]) (Toolkit.mk (pystr "a") [] none [] [2])).2.1
    [] [] [1] [2] Function.injective_id (by decide) (by decide) (by decide) (by decide)

/-- A toolkit definition record of the configuration (`config["toolkits"]`):
its `key` and the remaining fields of the record, abstracted as an opaque
payload (only the key is read by the lookup helpers). -/
structure ToolkitDef where
  key : PyStr
  body : Nat
deriving DecidableEq, Repr

/-- Python `str.startswith`. -/
def pyStartswith (s t : PyStr) : Bool := s.take t.length == t

/-- Embedding of `Toolkit.from_key` (lines 200-206) at the configuration
level: the first definition record with the given key; the claims about
lookup concern which record is selected, not the subsequent `from_def`
construction. -/
def from_key (config : List ToolkitDef) (key : PyStr) : Option ToolkitDef :=
  config.find? fun d => d.key == key

/-- The `for/else` loop of `Toolkit.from_default` (lines 208-225): break (and
look up `"default"`) on a record keyed `default`; otherwise remember the key
of each public record and count them; when the loop completes, fail unless
exactly one public record was seen, then look up the remembered key. -/
def from_default_loop (config rem : List ToolkitDef) (key : Option PyStr) (numPublic : Nat) :
    Option ToolkitDef :=
  match rem with
  | [] =>
    if numPublic ≠ 1 then none
    else
      match key with
      | some k => from_key config k
      | none => none
  | d :: rest =>
    if d.key = pystr "default" then from_key config (pystr "default")
    else if pyStartswith d.key (pystr "_") = false then
      from_default_loop config rest (some d.key) (numPublic + 1)
    else
      from_default_loop config rest key numPublic

/-- Embedding of `Toolkit.from_default` (lines 208-225). -/
def from_default (config : List ToolkitDef) : Option ToolkitDef :=
  from_default_loop config config none 0

/-- Embedding of module-level `get` (lines 301-305); a falsy key (Python
`None` or the empty string) selects the default resolution. -/
def get (config : List ToolkitDef) (key : Option PyStr) : Option ToolkitDef :=
  if strTruthy key = true then from_key config (key.getD []) else from_default config

/-- The key the loop would look up when it completes: the last public record's
key, or the carried accumulator. -/
def finalKey (rem : List ToolkitDef) (key : Option PyStr) : Option PyStr :=
  match (rem.filter fun d => pyStartswith d.key (pystr "_") = false).getLast? with
  | some d => some d.key
  | none => key

theorem from_default_loop_break (config : List ToolkitDef) :
    ∀ (rem : List ToolkitDef), (∃ d ∈ rem, d.key = pystr "default") →
      ∀ key n, from_default_loop config rem key n = from_key config (pystr "default") := by
  intro rem
  induction rem with
  | nil => rintro ⟨d, hd, _⟩; simp at hd
  | cons d rest ih =>
    rintro ⟨e, he, hekey⟩ key n
    unfold from_default_loop
    by_cases hd : d.key = pystr "default"
    · rw [if_pos hd]
    · rw [if_neg hd]
      have herest : e ∈ rest := by
        rcases List.mem_cons.mp he with rfl | h
        · exact absurd hekey hd
        · exact h
      by_cases hp : pyStartswith d.key (pystr "_") = false
      · rw [if_pos hp]
        exact ih ⟨e, herest, hekey⟩ _ _
      · rw [if_neg hp]
        exact ih ⟨e, herest, hekey⟩ _ _

theorem from_default_loop_complete (config : List ToolkitDef) :
    ∀ (rem : List ToolkitDef), (¬ ∃ d ∈ rem, d.key = pystr "default") →
      ∀ key n,
        from_default_loop config rem key n =
          if n + (rem.filter fun d => pyStartswith d.key (pystr "_") = false).length = 1 then
            match finalKey rem key with
            | some k => from_key config k
            | none => none
          else none := by
  intro rem
  induction rem with
  | nil =>
    intro _ key n
    unfold from_default_loop finalKey
    simp only [List.filter_nil, List.getLast?_nil, List.length_nil, Nat.add_zero]
    by_cases hn : n = 1
    · rw [if_neg (by omega), if_pos hn]
    · rw [if_pos (by omega), if_neg hn]
  | cons d rest ih =>
    intro hno key n
    have hdkey : ¬ d.key = pystr "default" := fun h => hno ⟨d, List.mem_cons_self d rest, h⟩
    have hnorest : ¬ ∃ e ∈ rest, e.key = pystr "default" := by
      rintro ⟨e, he, hek⟩
      exact hno ⟨e, List.mem_cons_of_mem d he, hek⟩
    unfold from_default_loop
    rw [if_neg hdkey]
    by_cases hp : pyStartswith d.key (pystr "_") = false
    · rw [if_pos hp, ih hnorest (some d.key) (n + 1)]
      have hfilter : ((d :: rest).filter fun e => pyStartswith e.key (pystr "_") = false) =
          d :: (rest.filter fun e => pyStartswith e.key (pystr "_") = false) := by
        rw [List.filter_cons_of_pos (by simpa using hp)]
      rw [hfilter]
      have hfk : finalKey (d :: rest) key = finalKey rest (some d.key) := by
        unfold finalKey
        rw [hfilter]
        cases hrest : (rest.filter fun e => pyStartswith e.key (pystr "_") = false) with
        | nil => simp
        | cons a l =>
          rw [List.getLast?_cons_cons]
          cases hgl : (a :: l).getLast? with
          | none => exact absurd hgl (by simp)
          | some b => rfl
      rw [hfk]
      have harith : n + (d :: (rest.filter fun e => pyStartswith e.key (pystr "_") = false)).length
          = n + 1 + (rest.filter fun e => pyStartswith e.key (pystr "_") = false).length := by
        simp [List.length_cons]
        omega
      rw [harith]
    · rw [if_neg hp, ih hnorest key n]
      have hfilter : ((d :: rest).filter fun e => pyStartswith e.key (pystr "_") = false) =
          rest.filter fun e => pyStartswith e.key (pystr "_") = false := by
        rw [List.filter_cons_of_neg (by simpa using hp)]
      rw [hfilter]
      unfold finalKey
      rw [hfilter]

theorem from_key_mem (config : List ToolkitDef) (k : PyStr)
    (h : ∃ d ∈ config, d.key = k) :
    ∃ d, from_key config k = some d ∧ d ∈ config ∧ d.key = k := by
  unfold from_key
  have hsome : (config.find? fun d => d.key == k).isSome := by
    rw [List.find?_isSome]
    obtain ⟨d, hd, hk⟩ := h
    exact ⟨d, hd, by simp [hk]⟩
  obtain ⟨d, hd⟩ := Option.isSome_iff_exists.mp hsome
  refine ⟨d, hd, List.mem_of_find?_eq_some hd, ?_⟩
  have hp := List.find?_some hd
  simpa using hp

theorem from_key_unique_public (config : List ToolkitDef) (d : ToolkitDef)
    (h : (config.filter fun e => pyStartswith e.key (pystr "_") = false) = [d]) :
    from_key config d.key = some d := by
  induction config with
  | nil => simp at h
  | cons c rest ih =>
    by_cases hc : pyStartswith c.key (pystr "_") = false
    · rw [List.filter_cons_of_pos (by simpa using hc)] at h
      injection h with h1 h2
      subst h1
      unfold from_key
      simp [List.find?_cons]
    · rw [List.filter_cons_of_neg (by simpa using hc)] at h
      have hdpub : pyStartswith d.key (pystr "_") = false := by
        have hdmem : d ∈ rest.filter fun e => pyStartswith e.key (pystr "_") = false := by
          rw [h]
          exact List.mem_singleton.mpr rfl
        simpa using (List.mem_filter.mp hdmem).2
      have hne : (c.key == d.key) = false := by
        apply beq_eq_false_iff_ne.mpr
        intro hck
        rw [hck] at hc
        exact hc hdpub
      unfold from_key at ih ⊢
      rw [List.find?_cons, hne]
      exact ih h

/-- C8: default resolution of `get()` with no key (`toolkit.py` lines 208-225
and 301-305): return the record keyed `default` when one exists; else, when
exactly one record's key does not start with the private marker `_`, return
that one; otherwise return an empty result. -/
theorem get_default_resolution (config : List ToolkitDef) :
    get config none = from_default config ∧
    ((∃ d ∈ config, d.key = pystr "default") →
      ∃ d, from_default config = some d ∧ d ∈ config ∧ d.key = pystr "default") ∧
    ((¬ ∃ d ∈ config, d.key = pystr "default") →
      ∀ d, (config.filter fun e => pyStartswith e.key (pystr "_") = false) = [d] →
        from_default config = some d) ∧
    ((¬ ∃ d ∈ config, d.key = pystr "default") →
      (config.filter fun e => pyStartswith e.key (pystr "_") = false).length ≠ 1 →
      from_default config = none) := by
  refine ⟨rfl, ?_, ?_, ?_⟩
  · intro h
    unfold from_default
    rw [from_default_loop_break config config h none 0]
    exact from_key_mem config (pystr "default") h
  · intro hno d hfil
    unfold from_default
    rw [from_default_loop_complete config config hno none 0]
    have hlen : 0 + (config.filter fun e => pyStartswith e.key (pystr "_") = false).length = 1 := by
      rw [hfil]
      rfl
    rw [if_pos hlen]
    have hfk : finalKey config none = some d.key := by
      unfold finalKey
      rw [hfil]
      rfl
    rw [hfk]
    exact from_key_unique_public config d hfil
  · intro hno hlen
    unfold from_default
    rw [from_default_loop_complete config config hno none 0]
    rw [if_neg (by omega)]

/-- Witness for `get_default_resolution`: a configuration with a record keyed
`default` resolves to it. -/
theorem get_default_resolution_witness :
    ∃ d, from_default [(⟨pystr "default", 0⟩ : ToolkitDef)] = some d ∧
      d ∈ [(⟨pystr "default", 0⟩ : ToolkitDef)] ∧ d.key = pystr "default" :=
  (get_default_resolution [⟨pystr "default", 0⟩]).2.1
    ⟨⟨pystr "default", 0⟩, by decide, by decide⟩

/-- Modelled from the spec: `footing.build.Build` (spec section 3), whose code
is not under the embedded sources — an artifact identity: a kind (the lock
artifact kind `conda-lock` or the materialized-environment kind `toolkit`),
a name, a ref, and a path once resolved. -/
structure Build where
  kind : PyStr
  name : PyStr
  ref : PyStr
  path : Option PyStr
deriving DecidableEq, Repr

/-- Modelled from the spec: one registry tier of `footing.registry` (spec
sections 2 and 6), an external key-value artifact store exposing `find`,
`push` and `copy`; artifacts are keyed by kind, name and ref. -/
abbrev Registry := List Build

/-- Modelled from the spec: `Registry.find(build)` returns the stored build
matching the query's kind, name and ref, or nothing. -/
def regFind (r : Registry) (b : Build) : Option Build :=
  r.find? fun x => x.kind == b.kind && x.name == b.name && x.ref == b.ref

/-- Modelled from the spec: `Registry.push(build)` stores the build. -/
def regPush (r : Registry) (b : Build) : Registry := b :: r

/-- Modelled from the spec: `Registry.copy(build, to_registry)` copies the
stored artifact into the destination tier. -/
def regCopy (src : Registry) (b : Build) (dst : Registry) : Registry :=
  match regFind src b with
  | some x => regPush dst x
  | none => dst

/-- Observable collaborator interactions of `Toolkit.install`, in order. -/
inductive Event where
  | find_repo (b : Build)
  | find_local (b : Build)
  | copy_to_repo (b : Build)
  | resolver_lock (specs : List LockSpecification) (platforms : List PyStr) (lockfile : PyStr)
  | push_local (b : Build)
  | push_repo (b : Build)
  | materialize (lockPath : Option PyStr) (envName : PyStr)
  | invariant_violation
deriving DecidableEq, Repr

def Event.isResolverCall : Event → Bool
  | Event.resolver_lock _ _ _ => true
  | _ => false

def Event.isMaterializerCall : Event → Bool
  | Event.materialize _ _ => true
  | _ => false

/-- Embedding of `Toolkit.uri` (lines 118-120). -/
def Toolkit.uri (t : Toolkit) : PyStr := pystr "toolkit:" ++ t.key

/-- Embedding of `Toolkit.conda_env_name` (lines 122-131): the project key,
with `-<key>` appended unless the key is `default`. -/
def Toolkit.conda_env_name (projectKey : PyStr) (t : Toolkit) : PyStr :=
  if ¬ t.key = pystr "default" then projectKey ++ pystr "-" ++ t.key else projectKey

/-- Embedding of `Toolkit.lock_file` (lines 227-229): `locks_dir/<uri>.yml`. -/
def Toolkit.lock_file (locksDir : PyStr) (t : Toolkit) : PyStr :=
  locksDir ++ pystr "/" ++ t.uri ++ pystr ".yml"

/-- The ambient context of `Toolkit.install`: the external collaborators and
configuration it reads — the parsers, `footing.util.local_config()`'s project
key, the locks and conda directories, the temporary file name allocated by
`tempfile.NamedTemporaryFile`, and the external digest/serializer/filesystem
of `ref`. -/
structure InstallEnv where
  parse : ParseEnv
  projectKey : PyStr
  locks_dir : PyStr
  conda_dir : PyStr
  tmp_lock_name : PyStr
  hash : List Nat → PyStr
  dump : PyStr → List Nat
  fs : PyStr → List Nat

/-- Embedding of `Toolkit.lock` (lines 231-259): invoke the external
`conda_lock` resolver on `self.dependency_specs` (patched in as the parsed
source files) and `self.platforms`, writing the lock to the `--lockfile`
argument `self.lock_file`.  The `output_path` parameter is accepted and — as
in the source — never used: the lock is written to the locks directory, not
to `output_path`. -/
def Toolkit.lock (env : InstallEnv) (output_path : PyStr) (t : Toolkit) : Event :=
  Event.resolver_lock (t.dependency_specs env.parse)
    (Toolkit.postInitPlatforms t.platforms) (t.lock_file env.locks_dir)

/-- Embedding of `Toolkit.install` (lines 261-298) as explicit state passing
over the two registry tiers, recording the collaborator interactions: phase 1
resolves the lock artifact (shared tier, else local tier with promotion, else
build via the resolver and push to both tiers); phase 2 resolves the
materialized-environment artifact (local tier only; on a miss it fetches the
lock build from the shared tier — absence there is the fatal invariant
violation — materializes, and pushes the environment locally). -/
def Toolkit.install (env : InstallEnv) (local_registry repo_registry : Registry)
    (t : Toolkit) : Registry × Registry × List Event :=
  let build_ref := t.ref env.hash env.dump env.fs
  let build_name := t.conda_env_name env.projectKey
  let lock_build : Build := ⟨pystr "conda-lock", build_name, build_ref, none⟩
  let phase1 : Registry × Registry × List Event :=
    match regFind repo_registry lock_build with
    | some _ => (local_registry, repo_registry, [Event.find_repo lock_build])
    | none =>
      match regFind local_registry lock_build with
      | some _ =>
        (local_registry, regCopy local_registry lock_build repo_registry,
         [Event.find_repo lock_build, Event.find_local lock_build,
          Event.copy_to_repo lock_build])
      | none =>
        let lock_build' := { lock_build with path := some env.tmp_lock_name }
        (regPush local_registry lock_build', regPush repo_registry lock_build',
         [Event.find_repo lock_build, Event.find_local lock_build,
          t.lock env env.tmp_lock_name,
          Event.push_local lock_build', Event.push_repo lock_build'])
  let toolkit_build : Build := ⟨pystr "toolkit", build_name, build_ref, none⟩
  match regFind phase1.1 toolkit_build with
  | some _ => (phase1.1, phase1.2.1, phase1.2.2 ++ [Event.find_local toolkit_build])
  | none =>
    match regFind phase1.2.1 lock_build with
    | none =>
      (phase1.1, phase1.2.1,
       phase1.2.2 ++ [Event.find_local toolkit_build, Event.invariant_violation])
    | some lb =>
      let toolkit_build' :=
        { toolkit_build with path := some (env.conda_dir ++ pystr "/envs/" ++ build_name) }
      (regPush phase1.1 toolkit_build', phase1.2.1,
       phase1.2.2 ++ [Event.find_local toolkit_build,
        Event.materialize lb.path build_name, Event.push_local toolkit_build'])

/-- The lock-artifact descriptor of line 267. -/
def lockBuildOf (env : InstallEnv) (t : Toolkit) : Build :=
  ⟨pystr "conda-lock", t.conda_env_name env.projectKey, t.ref env.hash env.dump env.fs, none⟩

/-- The materialized-environment descriptor of line 280. -/
def envBuildOf (env : InstallEnv) (t : Toolkit) : Build :=
  ⟨pystr "toolkit", t.conda_env_name env.projectKey, t.ref env.hash env.dump env.fs, none⟩

/-- C9: when the lock artifact is already in the shared registry, `install`
invokes the Resolver zero times, the trace starts with the shared-registry
hit followed immediately by the local-registry check for the
materialized-environment artifact, and when that check also succeeds the
whole trace is exactly those two finds — in particular the Materializer is
not invoked either. -/
theorem install_shared_hit_no_work (env : InstallEnv) (lreg rreg : Registry) (t : Toolkit)
    (hfound : ∃ x, regFind rreg (lockBuildOf env t) = some x) :
    (∀ e ∈ (Toolkit.install env lreg rreg t).2.2, e.isResolverCall = false) ∧
    (Toolkit.install env lreg rreg t).2.2.take 2 =
      [Event.find_repo (lockBuildOf env t), Event.find_local (envBuildOf env t)] ∧
    ((∃ y, regFind lreg (envBuildOf env t) = some y) →
      (Toolkit.install env lreg rreg t).2.2 =
        [Event.find_repo (lockBuildOf env t), Event.find_local (envBuildOf env t)] ∧
      ∀ e ∈ (Toolkit.install env lreg rreg t).2.2, e.isMaterializerCall = false) := by
  obtain ⟨x, hx⟩ := hfound
  unfold lockBuildOf at hx
  cases hty : regFind lreg (envBuildOf env t) with
  | some y =>
    unfold envBuildOf at hty
    have hres : Toolkit.install env lreg rreg t =
        (lreg, rreg,
         [Event.find_repo ⟨pystr "conda-lock", t.conda_env_name env.projectKey,
            t.ref env.hash env.dump env.fs, none⟩,
          Event.find_local ⟨pystr "toolkit", t.conda_env_name env.projectKey,
            t.ref env.hash env.dump env.fs, none⟩]) := by
      unfold Toolkit.install
      simp only [hx, hty]
      rfl
    rw [hres]
    unfold lockBuildOf envBuildOf
    refine ⟨?_, rfl, ?_⟩
    · intro e he
      rcases List.mem_cons.mp he with rfl | he
      · rfl
      · rcases List.mem_singleton.mp he with rfl
        rfl
    · intro _
      refine ⟨rfl, ?_⟩
      intro e he
      rcases List.mem_cons.mp he with rfl | he
      · rfl
      · rcases List.mem_singleton.mp he with rfl
        rfl
  | none =>
    unfold envBuildOf at hty
    have hres : Toolkit.install env lreg rreg t =
        (regPush lreg ⟨pystr "toolkit", t.conda_env_name env.projectKey,
            t.ref env.hash env.dump env.fs,
            some (env.conda_dir ++ pystr "/envs/" ++ t.conda_env_name env.projectKey)⟩,
         rreg,
         [Event.find_repo ⟨pystr "conda-lock", t.conda_env_name env.projectKey,
            t.ref env.hash env.dump env.fs, none⟩,
          Event.find_local ⟨pystr "toolkit", t.conda_env_name env.projectKey,
            t.ref env.hash env.dump env.fs, none⟩,
          Event.materialize x.path (t.conda_env_name env.projectKey),
          Event.push_local ⟨pystr "toolkit", t.conda_env_name env.projectKey,
            t.ref env.hash env.dump env.fs,
            some (env.conda_dir ++ pystr "/envs/" ++ t.conda_env_name env.projectKey)⟩]) := by
      unfold Toolkit.install
      simp only [hx, hty]
      rfl
    rw [hres]
    unfold lockBuildOf envBuildOf
    refine ⟨?_, rfl, ?_⟩
    · intro e he
      simp only [List.mem_cons, List.mem_singleton] at he
      rcases he with rfl | rfl | rfl | rfl | he
      · rfl
      · rfl
      · rfl
      · rfl
      · simp at he
    · rintro ⟨y, hy⟩
      exact Option.noConfusion hy

/-- A demonstration install context: identity digest and serializer, empty
filesystem, the demonstration parsers, and concrete directory names. -/
def demoInstallEnv : InstallEnv where
  parse := demoParseEnv
  projectKey := pystr "proj"
  locks_dir := pystr "locks"
  conda_dir := pystr "conda"
  tmp_lock_name := pystr "tmp"
  hash := id
  dump := id
  fs := fun _ => []

/-- Witness for `install_shared_hit_no_work`: with both artifacts cached, the
trace is exactly the two registry checks. -/
theorem install_shared_hit_no_work_witness :
    (Toolkit.install demoInstallEnv [envBuildOf demoInstallEnv demoToolkit]
        [lockBuildOf demoInstallEnv demoToolkit] demoToolkit).2.2 =
      [Event.find_repo (lockBuildOf demoInstallEnv demoToolkit),
       Event.find_local (envBuildOf demoInstallEnv demoToolkit)] :=
  ((install_shared_hit_no_work demoInstallEnv [envBuildOf demoInstallEnv demoToolkit]
      [lockBuildOf demoInstallEnv demoToolkit] demoToolkit
      ⟨lockBuildOf demoInstallEnv demoToolkit, by decide⟩).2.2
    ⟨envBuildOf demoInstallEnv demoToolkit, by decide⟩).1

/-- C3 exhibit: the full `install` trace at a failing input (lock artifact in
neither registry).  The lookup and promotion order and the two pushes match
the documented protocol, but the resolver invocation (third event) writes the
lock to the toolkit's lock file under the locks directory — `Toolkit.lock`
ignores its `output_path` argument — while the build pushed to both
registries (fourth and fifth events) and handed to the materializer (seventh
event) carries the temporary file's path, which never received the lock: the
lock-file path and the pushed temporary path differ. -/
theorem install_lock_protocol_failing_input :
    (Toolkit.install demoInstallEnv [] [] demoToolkit).2.2 =
      [Event.find_repo (lockBuildOf demoInstallEnv demoToolkit),
       Event.find_local (lockBuildOf demoInstallEnv demoToolkit),
       Event.resolver_lock (Toolkit.dependency_specs demoParseEnv demoToolkit)
         (Toolkit.postInitPlatforms []) (Toolkit.lock_file (pystr "locks") demoToolkit),
       Event.push_local
         { lockBuildOf demoInstallEnv demoToolkit with path := some (pystr "tmp") },
       Event.push_repo
         { lockBuildOf demoInstallEnv demoToolkit with path := some (pystr "tmp") },
       Event.find_local (envBuildOf demoInstallEnv demoToolkit),
       Event.materialize (some (pystr "tmp")) (pystr "proj"),
       Event.push_local
         { envBuildOf demoInstallEnv demoToolkit with
             path := some (pystr "conda/envs/proj") }] ∧
    ¬ Toolkit.lock_file (pystr "locks") demoToolkit = pystr "tmp" :=
  ⟨by decide, by decide⟩
